import Mathlib

set_option maxRecDepth 20000

/-!
Verification of the SIM800L cell-locator acquisition engine.

The source is Arduino C++ (`src/test/main3.cpp`, the tabular AT+CENG variant,
and the discrete AT+CREG / AT+CSQ / AT+COPS variant in `src/unnamed/part_002`).
Arduino `String` values are modelled as `List Char`; `String.indexOf`,
`String.substring`, `String.trim`, `String.toLowerCase`, `String.toInt` and the
libc functions `strtol` / `atol` are modelled below, including the
int-to-unsigned conversion of a negative `fromIndex`, the argument swap of
`substring`, and the `long` clamping of `strtol`.
-/

namespace SIM800

/-- C locale isspace, the set used by Arduino String::trim. -/
def isSpaceC (c : Char) : Bool :=
  c = ' ' || c = '\t' || c = '\n' || c = Char.ofNat 11 || c = Char.ofNat 12 || c = '\r'

/-- ASCII tolower, as applied per character by String::toLowerCase. -/
def lowerC (c : Char) : Char :=
  if 'A' ≤ c && c ≤ 'Z' then Char.ofNat (c.toNat + 32) else c

def lowerL (l : List Char) : List Char := l.map lowerC

/-- Arduino String::trim: strip isspace characters from both ends. -/
def trimL (l : List Char) : List Char :=
  ((l.dropWhile isSpaceC).reverse.dropWhile isSpaceC).reverse

/-- Index of the first occurrence of `pat` in the list (strstr semantics). -/
def firstOcc (pat : List Char) : List Char → Option Nat
  | [] => if pat.isEmpty then some 0 else none
  | c :: cs => if pat.isPrefixOf (c :: cs) then some 0 else (firstOcc pat cs).map (· + 1)

def UINT32 : Int := 4294967296

/-- Arduino String::indexOf(pat, fromIndex): the `int` fromIndex is converted to
unsigned, an out-of-range start yields -1, otherwise strstr from that start. -/
def idxL (s pat : List Char) (i : Int) : Int :=
  let iu : Int := if i < 0 then UINT32 + i else i
  if iu ≥ (s.length : Int) then -1
  else
    match firstOcc pat (s.drop iu.toNat) with
    | some k => iu + k
    | none => -1

/-- Arduino String::substring(left, right): unsigned conversion of the `int`
arguments, swap when left > right, clamp right to the length, then the
characters at positions left..right-1. -/
def subA (s : List Char) (l r : Int) : List Char :=
  let lu : Int := if l < 0 then UINT32 + l else l
  let ru : Int := if r < 0 then UINT32 + r else r
  let lo := if lu > ru then ru else lu
  let hi := if lu > ru then lu else ru
  if lo ≥ (s.length : Int) then []
  else (s.take (min hi.toNat s.length)).drop lo.toNat

/-- Arduino String::substring(from) = substring(from, length). -/
def subA1 (s : List Char) (l : Int) : List Char := subA s l (s.length : Int)

def hexDigitVal (c : Char) : Option Nat :=
  if '0' ≤ c && c ≤ '9' then some (c.toNat - 48)
  else if 'a' ≤ c && c ≤ 'f' then some (c.toNat - 87)
  else if 'A' ≤ c && c ≤ 'F' then some (c.toNat - 55)
  else none

def decDigitVal (c : Char) : Option Nat :=
  if '0' ≤ c && c ≤ '9' then some (c.toNat - 48) else none

def digitValB (base : Nat) (c : Char) : Option Nat :=
  if base = 16 then hexDigitVal c else decDigitVal c

/-- The digit-accumulation loop of strtol: consume digits of the base until the
first non-digit, folding into an accumulator (exact value, clamped later). -/
def strtolDigits (base : Nat) : List Char → Nat → Nat
  | [], acc => acc
  | c :: cs, acc =>
    match digitValB base c with
    | some d => strtolDigits base cs (acc * base + d)
    | none => acc

def LONG_MAX : Int := 2147483647

def LONG_MIN : Int := -2147483648

/-- strtol stage 1: skip leading isspace characters. -/
def strtolSkipWs (s : List Char) : List Char := s.dropWhile isSpaceC

/-- strtol stage 2: the sign is negative iff the first non-space char is -. -/
def strtolSign (s1 : List Char) : Bool :=
  match s1 with
  | [] => false
  | c :: _ => c = '-'

/-- strtol stage 2: consume one leading - or +. -/
def strtolAfterSign (s1 : List Char) : List Char :=
  match s1 with
  | [] => []
  | c :: t => if c = '-' || c = '+' then t else c :: t

/-- strtol stage 3: for base 16, consume a leading 0x/0X (dropping the prefix
unconditionally is value-equivalent to the ISO C "followed by a hex digit"
rule, since a bare "0x" leaves no digits and both read the value 0). -/
def strtolStrip0x (base : Nat) (s2 : List Char) : List Char :=
  if base = 16 then
    match s2 with
    | c0 :: x :: t => if c0 = '0' && (x = 'x' || x = 'X') then t else s2
    | _ => s2
  else s2

/-- strtol(s, NULL, base) for base 10 or 16 on a 32-bit `long` (ESP32/AVR):
skip isspace, optional sign, optional 0x/0X for base 16, accumulate digits
until the first non-digit, clamp to LONG_MAX / LONG_MIN on overflow; no
digits gives 0. -/
def strtolModel (base : Nat) (s : List Char) : Int :=
  let s1 := strtolSkipWs s
  let v : Nat := strtolDigits base (strtolStrip0x base (strtolAfterSign s1)) 0
  if strtolSign s1 then max (-(v : Int)) LONG_MIN else min (v : Int) LONG_MAX

/-- `strtol(s.c_str(), NULL, 16)` as used for LAC/CID hex fields. -/
def decodeHex (s : String) : Int := strtolModel 16 s.data

/-- Arduino String::toInt = atol = strtol base 10. -/
def toIntA (s : List Char) : Int := strtolModel 10 s

/-- Implicit conversion long -> int16_t (two's complement wrap), for the
`int16_t signalQuality` assignment. -/
def toInt16 (x : Int) : Int := (x + 32768) % 65536 - 32768

def cengTok : List Char := "+CENG:".data

def cregTok : List Char := "+CREG:".data

def csqTok : List Char := "+CSQ:".data

def okTok : List Char := "OK".data

def readyTok : List Char := "READY".data

def qTok : List Char := "\"".data

def commaTok : List Char := ",".data

def nlTok : List Char := "\n".data

/-!
Tabular (AT+CENG) dialect, reference variant `src/test/main3.cpp`.
-/

/-- The comma-split of a quoted CENG data section into the `values[6]` array
(main3.cpp lines 103-114 and 264-276): at most 5 searches for a comma, on a
missing comma the tail is stored and the loop breaks, then the remaining
entries are filled with empty strings.  Note that when five commas are present
the text after the fifth comma is dropped and `values[5]` stays empty. -/
def splitGo : Nat → List Char → List (List Char)
  | 0, _ => []
  | j+1, rest =>
    match firstOcc commaTok rest with
    | none => [rest]
    | some k => rest.take k :: splitGo j (rest.drop (k+1))

def values6 (data : List Char) : List (List Char) :=
  let vs := splitGo 5 data
  vs ++ List.replicate (6 - vs.length) []

/-- Quoted-section extraction of a CENG line as done by isCengDataComplete
(main3.cpp lines 94-101): first comma, first quote at/after it, next quote;
a missing quote means the line is skipped. -/
def lineVals (line : List Char) : Option (List (List Char)) :=
  let comma1 := idxL line commaTok 0
  let q1 := idxL line qTok comma1
  let q2 := idxL line qTok (q1 + 1)
  if q1 == -1 || q2 == -1 then none
  else some (values6 (subA line (q1 + 1) q2))

/-- A bad identifying field (main3.cpp lines 117-123): after trim and
toLowerCase it is empty, "0000" or "ffff". -/
def badIdField (v : List Char) : Bool :=
  let w := lowerL (trimL v)
  w.isEmpty || w == "0000".data || w == "ffff".data

/-- One iteration of the scan loop of isCengDataComplete (main3.cpp lines
86-126): find the next "+CENG:" occurrence (none ends the loop), take the
line from it up to the next newline (or the end), trim it, extract its quoted
values, and continue the scan at the line end. -/
def cengStep (rest : List Char) : Option (Option (List (List Char)) × List Char) :=
  match firstOcc cengTok rest with
  | none => none
  | some k =>
    let tl := rest.drop k
    let lineEnd := (firstOcc nlTok tl).getD tl.length
    let line := trimL (tl.take lineEnd)
    some (lineVals line, tl.drop lineEnd)

/-- The scan loop of isCengDataComplete: a line without a quoted section is
skipped, a record with a bad field among the first four returns false,
otherwise the scan continues.  `fuel` only bounds the iteration count; the
top-level wrapper passes `length + 1`, which exceeds the number of iterations
the source loop makes. -/
def cengCompleteGo : Nat → List Char → Bool
  | 0, _ => true
  | f+1, rest =>
    match cengStep rest with
    | none => true
    | some (none, next) => cengCompleteGo f next
    | some (some vs, next) =>
      if (vs.take 4).any badIdField then false
      else cengCompleteGo f next

def cengCompleteL (r : List Char) : Bool := cengCompleteGo (r.length + 1) r

def isCengDataComplete (s : String) : Bool := cengCompleteL s.data

/-- The record sets that isCengDataComplete's scan inspects: same walk,
collecting the `values` arrays of the qualifying record-bearing lines. -/
def cengRecordsGo : Nat → List Char → List (List (List Char))
  | 0, _ => []
  | f+1, rest =>
    match cengStep rest with
    | none => []
    | some (none, next) => cengRecordsGo f next
    | some (some vs, next) => vs :: cengRecordsGo f next

def cengRecordsL (r : List Char) : List (List (List Char)) :=
  cengRecordsGo (r.length + 1) r

def cengRecordsOf (s : String) : List (List (List Char)) := cengRecordsL s.data

/-- std::map<int,String> assignment `m[i] = v`: replace or insert. -/
def insertA : List (Int × List Char) → Int → List Char → List (Int × List Char)
  | [], i, v => [(i, v)]
  | (j, w) :: t, i, v => if i = j then (i, v) :: t else (j, w) :: insertA t i v

/-- std::map<int,String> lookup. -/
def lookupA : List (Int × List Char) → Int → Option (List Char)
  | [], _ => none
  | (j, w) :: t, i => if i = j then some w else lookupA t i

/-- The cell-line collection loop of main3.cpp getCellInfo (lines 229-245),
again over the suffix at the current scan position: each "+CENG:" line with a
comma is stored in the map under `line.substring(6, comma1).toInt()` and the
running maximum index is updated; a line without a comma advances the scan by
one character, otherwise the scan continues at the line end. -/
def collectGo : Nat → List Char → List (Int × List Char) → Int → List (Int × List Char) × Int
  | 0, _, acc, mx => (acc, mx)
  | f+1, rest, acc, mx =>
    match firstOcc cengTok rest with
    | none => (acc, mx)
    | some k =>
      let tl := rest.drop k
      let lineEnd := (firstOcc nlTok tl).getD tl.length
      let line := trimL (tl.take lineEnd)
      let comma1 := idxL line commaTok 0
      if comma1 == -1 then collectGo f (tl.drop 1) acc mx
      else
        let index := toIntA (subA line 6 comma1)
        collectGo f (tl.drop lineEnd) (insertA acc index line)
          (if index > mx then index else mx)

/-- The per-index display loop of main3.cpp getCellInfo (lines 248-276): for
each idx from 0 to maxIndex, a missing map entry or a line without a parseable
quoted section is skipped, otherwise the `values` array of the line is the
parsed record for that index. -/
def cellsOf (m : List (Int × List Char)) (mx : Int) : List (Int × List (List Char)) :=
  if mx < 0 then []
  else
    (List.range (mx.toNat + 1)).filterMap fun (n : Nat) =>
      match lookupA m (n : Int) with
      | none => none
      | some line =>
        let comma1 := idxL line commaTok 0
        let q1 := idxL line qTok comma1
        let q2 := idxL line qTok (q1 + 1)
        if q1 == -1 || q2 == -1 then none
        else some ((n : Int), values6 (subA line (q1 + 1) q2))

def recordsOfL (r : List Char) : List (Int × List (List Char)) :=
  let p := collectGo (r.length + 1) r [] (-1)
  cellsOf p.1 p.2

/-- The record list produced by the tabular parse of main3.cpp, with the
fields presented as Lean strings. -/
def recordsOfStr (s : String) : List (Int × List String) :=
  (recordsOfL s.data).map fun p => (p.1, p.2.map fun v => String.mk v)

/-- The retry-loop success condition (main3.cpp line 201): the response
contains the "+CENG:" marker and passes the completeness validator. -/
def pollGood (r : List Char) : Bool :=
  idxL r cengTok 0 != -1 && cengCompleteL r

/-- The bounded poll loop (main3.cpp lines 196-210): up to `fuel` attempts
starting at attempt number `i`, returning the number of the first attempt
whose response satisfies pollGood. -/
def retrySearch (c : Nat → List Char) : Nat → Nat → Option Nat
  | 0, _ => none
  | f+1, i => if pollGood (c i) then some i else retrySearch c f (i+1)

/-- The modem responses a run of the tabular getCellInfo consumes: the "AT"
probe response, the "AT+CPIN?" response, and the response of the i-th
"AT+CENG?" poll (the "AT+CENG=3,1" command is sent without reading back). -/
structure TEnv where
  atResp : String
  cpinResp : String
  cengResp : Nat → String

/-- The global program state touched by main3.cpp getCellInfo. -/
structure TGlobals where
  g_mcc : Int
  g_mnc : Int
  g_lac : Int
  g_cid : Int
  cellInfo : String
deriving DecidableEq

inductive TFail
  | modemUnresponsive
  | simNotReady
  | pollExhausted
deriving DecidableEq

inductive TResult
  | failed (c : TFail)
  | succeeded
deriving DecidableEq

structure TOut where
  result : TResult
  globals : TGlobals
  pollExchanges : Nat
  atProbes : Nat
  cpinProbes : Nat
  records : List (Int × List (List Char))
deriving DecidableEq

/-- main3.cpp getCellInfo (lines 130-323): the AT liveness probe (no "OK" in
the response fails immediately with no poll issued and no retry), the
AT+CPIN? probe (no "READY" fails immediately), then up to 5 AT+CENG? polls
stopping at the first pollGood response; exhaustion fails, success parses the
winning response into records and then clears every global output. -/
def getCellInfoT (env : TEnv) (g0 : TGlobals) : TOut :=
  if idxL env.atResp.data okTok 0 == -1 then
    ⟨.failed .modemUnresponsive, g0, 0, 1, 0, []⟩
  else if idxL env.cpinResp.data readyTok 0 == -1 then
    ⟨.failed .simNotReady, g0, 0, 1, 1, []⟩
  else
    match retrySearch (fun i => (env.cengResp i).data) 5 0 with
    | none => ⟨.failed .pollExhausted, g0, 5, 1, 1, []⟩
    | some i =>
      ⟨.succeeded, ⟨0, 0, 0, 0, ""⟩, i + 1, 1, 1, recordsOfL (env.cengResp i).data⟩

/-!
Discrete (AT+CREG / AT+CSQ / AT+COPS) dialect, the variant at
`src/unnamed/part_002` lines 535-711.
-/

/-- The global cell-identifier state of the discrete variant. -/
structure DGlobals where
  g_mcc : Int
  g_mnc : Int
  g_lac : Int
  g_cid : Int
deriving DecidableEq

/-- LAC/CID extraction from the AT+CREG? response (part_002 lines 602-624):
locate "+CREG:", then the four quote characters after it; on success the two
quoted substrings are hex-decoded into the globals and re-rendered in decimal,
on any failure the lac/cid strings stay empty and the globals untouched. -/
def parseCREG (resp : List Char) (g : DGlobals) : List Char × List Char × DGlobals :=
  let cregIdx := idxL resp cregTok 0
  if cregIdx == -1 then ([], [], g)
  else
    let q1 := idxL resp qTok cregIdx
    let q2 := idxL resp qTok (q1 + 1)
    let q3 := idxL resp qTok (q2 + 1)
    let q4 := idxL resp qTok (q3 + 1)
    if q1 != -1 && q2 != -1 && q3 != -1 && q4 != -1 then
      let lacH := subA resp (q1 + 1) q2
      let cidH := subA resp (q3 + 1) q4
      let lacDec := strtolModel 16 lacH
      let cidDec := strtolModel 16 cidH
      ((toString lacDec).data, (toString cidDec).data,
        { g with g_lac := lacDec, g_cid := cidDec })
    else ([], [], g)

/-- Signal-quality extraction from the AT+CSQ response (part_002 lines
632-640): `int16_t signalQuality = 99`; when "+CSQ:" and a comma at/after it
are found, `signalQuality = resp.substring(csqIdx+6, commaIdx).toInt()`. -/
def parseCSQ (resp : List Char) : Int :=
  let csqIdx := idxL resp csqTok 0
  if csqIdx == -1 then 99
  else
    let commaIdx := idxL resp commaTok csqIdx
    if commaIdx == -1 then 99
    else toInt16 (toIntA (subA resp (csqIdx + 6) commaIdx))

/-- Operator numeric-code extraction (part_002 lines 656-670): g_mcc/g_mnc are
zeroed, the first quoted substring is the operator code, and when it has at
least 5 characters its first 3 characters and remainder are read with toInt
into g_mcc and g_mnc. -/
def parseCopsNum (resp : List Char) (g : DGlobals) : List Char × DGlobals :=
  let g1 := { g with g_mcc := 0, g_mnc := 0 }
  let i1 := idxL resp qTok 0
  let i2 := idxL resp qTok (i1 + 1)
  if i1 != -1 && i2 != -1 then
    let copsNum := subA resp (i1 + 1) i2
    if copsNum.length ≥ 5 then
      (copsNum,
        { g1 with g_mcc := toIntA (subA copsNum 0 3), g_mnc := toIntA (subA1 copsNum 3) })
    else (copsNum, g1)
  else ([], g1)

/-- Operator display-name extraction (part_002 lines 686-694): the first
quoted substring, or empty when not found. -/
def parseCopsAlpha (resp : List Char) : List Char :=
  let i1 := idxL resp qTok 0
  let i2 := idxL resp qTok (i1 + 1)
  if i1 != -1 && i2 != -1 then subA resp (i1 + 1) i2 else []

/-- The responses a run of the discrete getCellInfo consumes, in exchange
order.  `cregSetResp` (the AT+CREG=2 echo) is read but never inspected. -/
structure DEnv where
  atResp : String
  cpinResp : String
  cregSetResp : String
  cregResp : String
  csqResp : String
  copsSetNumResp : String
  copsNumResp : String
  copsSetAlphaResp : String
  copsAlphaResp : String

/-- The state handed back by a successful discrete run. -/
structure DSuccess where
  g_mcc : Int
  g_mnc : Int
  g_lac : Int
  g_cid : Int
  lacStr : String
  cidStr : String
  signalQuality : Int
  operatorName : String
  operatorCode : String
deriving DecidableEq

inductive DRes
  | failModem
  | failSim
  | failCopsSetNum
  | failCopsSetAlpha
  | success (r : DSuccess)
deriving DecidableEq

/-- The discrete getCellInfo (part_002 lines 535-711): AT probe ("OK"
required), AT+CPIN? probe ("READY" required), AT+CREG=2 (echo ignored),
AT+CREG? parse, AT+CSQ parse, AT+COPS=3,2 ("OK" required), numeric AT+COPS?
parse, AT+COPS=3,0 ("OK" required), alphanumeric AT+COPS? parse; all the
parses degrade to empty/sentinel fields without failing the run. -/
def getCellInfoD (env : DEnv) (g0 : DGlobals) : DRes :=
  if idxL env.atResp.data okTok 0 == -1 then .failModem
  else if idxL env.cpinResp.data readyTok 0 == -1 then .failSim
  else
    let r1 := parseCREG env.cregResp.data g0
    let sq := parseCSQ env.csqResp.data
    if idxL env.copsSetNumResp.data okTok 0 == -1 then .failCopsSetNum
    else
      let r2 := parseCopsNum env.copsNumResp.data r1.2.2
      if idxL env.copsSetAlphaResp.data okTok 0 == -1 then .failCopsSetAlpha
      else
        let opName := parseCopsAlpha env.copsAlphaResp.data
        .success
          ⟨r2.2.g_mcc, r2.2.g_mnc, r2.2.g_lac, r2.2.g_cid,
            String.mk r1.1, String.mk r1.2.1, sq, String.mk opName, String.mk r2.1⟩

/-- The distance estimate of the source (part_002 lines 696-698), over the
reals: `pow(10, (27.55 - 20*log10(900) + abs(q)) / 20)`. -/
noncomputable def distanceEstimate (q : ℝ) : ℝ :=
  (10 : ℝ) ^ ((27.55 - 20 * Real.logb 10 900 + |q|) / 20)

/-!
Spec-side constructions used to state the claims: a rendering of well-formed
tabular record lines, a digit printer with a provable toInt round-trip, the
spec's comma-split, and hex value/validity predicates.
-/

def digitChar (n : Nat) : Char := Char.ofNat (48 + n)

def natStrGo : Nat → Nat → List Char
  | 0, _ => []
  | f+1, n => if n < 10 then [digitChar n] else natStrGo f (n / 10) ++ [digitChar (n % 10)]

/-- Decimal digit string of a natural number. -/
def natStr (n : Nat) : List Char := natStrGo (n + 1) n

/-- A rendered CENG record line without its newline. -/
def lineBody (i : Nat) (d : List Char) : List Char :=
  "+CENG: ".data ++ natStr i ++ [','] ++ ['"'] ++ d ++ ['"']

def renderLine (i : Nat) (d : List Char) : List Char := lineBody i d ++ ['\n']

def renderList : List (Nat × List Char) → List Char
  | [] => []
  | p :: t => renderLine p.1 p.2 ++ renderList t

/-- A raw tabular response made only of well-formed record lines. -/
def renderCeng (L : List (Nat × String)) : String :=
  String.mk (renderList (L.map fun p => (p.1, p.2.data)))

/-- A data section is well formed when it contains no quote and no newline. -/
def goodData (d : List Char) : Prop := '"' ∉ d ∧ '\n' ∉ d

instance (d : List Char) : Decidable (goodData d) := by
  unfold goodData; infer_instance

/-- Modelled from the spec: "splits its contents on commas into up to 6
positional fields ... missing trailing fields are treated as empty": the full
comma-split, truncated to 6 fields and padded with empty strings. -/
def splitAllGo : Nat → List Char → List (List Char)
  | 0, rest => [rest]
  | f+1, rest =>
    match firstOcc commaTok rest with
    | none => [rest]
    | some k => rest.take k :: splitAllGo f (rest.drop (k+1))

def specSplit6 (d : List Char) : List (List Char) :=
  let parts := (splitAllGo d.length d).take 6
  parts ++ List.replicate (6 - parts.length) []

/-- The number of commas in a data section. -/
def commaCount (d : List Char) : Nat := d.countP (· = ',')

/-- A hexadecimal text: nonempty and made only of hex digits. -/
def isHexStr (s : String) : Bool :=
  !s.data.isEmpty && s.data.all fun c => (hexDigitVal c).isSome

/-- The base-16 value of a text of hex digits. -/
def hexVal (s : String) : Nat :=
  s.data.foldl (fun a c => a * 16 + ((hexDigitVal c).getD 0)) 0

/-- Whether `pat` occurs as a contiguous substring, independently of idxL. -/
def hasTok (s : String) (pat : List Char) : Bool := (firstOcc pat s.data).isSome

/-!
Lemmas: generic facts about the string primitives.
-/

theorem firstOcc_none_idxL (s pat : List Char) (h : firstOcc pat s = none) :
    idxL s pat 0 = -1 := by
  unfold idxL
  rcases s with _ | ⟨c, cs⟩
  · simp
  · simp [h]

theorem idxL_zero_of_firstOcc (s pat : List Char) (k : Nat) (hp : pat ≠ [])
    (h : firstOcc pat s = some k) : idxL s pat 0 = k := by
  unfold idxL
  rcases s with _ | ⟨c, cs⟩
  · unfold firstOcc at h
    rcases pat with _ | _ <;> simp_all
  · simp [h]

theorem hasTok_false_iff (s : String) (pat : List Char) :
    hasTok s pat = false ↔ firstOcc pat s.data = none := by
  unfold hasTok
  rcases firstOcc pat s.data <;> simp

theorem hasTok_false_idxL (s : String) (pat : List Char)
    (h : hasTok s pat = false) : idxL s.data pat 0 = -1 :=
  firstOcc_none_idxL _ _ ((hasTok_false_iff s pat).mp h)

theorem hasTok_true_idxL (s : String) (pat : List Char) (hp : pat ≠ [])
    (h : hasTok s pat = true) : idxL s.data pat 0 ≠ -1 := by
  unfold hasTok at h
  rcases ho : firstOcc pat s.data with _ | k
  · rw [ho] at h; simp at h
  · rw [idxL_zero_of_firstOcc s.data pat k hp ho]
    omega

/-!
Lemmas: the completeness validator inspects exactly the record sets collected
by cengRecordsGo.
-/

theorem cengCompleteGo_iff (f : Nat) :
    ∀ rest : List Char, cengCompleteGo f rest = true ↔
      ∀ vs ∈ cengRecordsGo f rest, (vs.take 4).any badIdField = false := by
  induction f with
  | zero => intro rest; simp [cengCompleteGo, cengRecordsGo]
  | succ f ih =>
    intro rest
    rcases h : cengStep rest with _ | ⟨_ | vs, next⟩
    · simp [cengCompleteGo, cengRecordsGo, h]
    · simpa [cengCompleteGo, cengRecordsGo, h] using ih next
    · rcases hb : (vs.take 4).any badIdField with _ | _
      · have e1 : cengCompleteGo (f+1) rest = cengCompleteGo f next := by
          simp [cengCompleteGo, h, hb]
        have e2 : cengRecordsGo (f+1) rest = vs :: cengRecordsGo f next := by
          simp [cengRecordsGo, h]
        rw [e1, e2, ih next]
        constructor
        · intro hall w hw
          rcases List.mem_cons.mp hw with hw | hw
          · subst hw; exact hb
          · exact hall w hw
        · intro hall w hw
          exact hall w (List.mem_cons_of_mem _ hw)
      · simp only [cengCompleteGo, cengRecordsGo, h, if_pos hb]
        constructor
        · intro hfalse; simp at hfalse
        · intro hall
          have h2 := hall vs (List.mem_cons_self _ _)
          rw [hb] at h2
          simp at h2

/-- C1 (amended): isCengDataComplete accepts a tabular response exactly when
every record it parses (each "+CENG:" line with a parseable quoted section)
has its first four fields — mcc, mnc, lac_hex, cid_hex — nonempty after
trimming and lowercasing and different from "0000" and "ffff"; in particular a
response with no qualifying record-bearing line is accepted (the empty record
set counts as complete), contrary to the original claim. -/
theorem ceng_complete_characterization (s : String) :
    isCengDataComplete s = true ↔
      ∀ vs ∈ cengRecordsOf s, (vs.take 4).any badIdField = false := by
  unfold isCengDataComplete cengCompleteL cengRecordsOf cengRecordsL
  exact cengCompleteGo_iff _ _

/-- C1 (counterexample): a poll response whose only "+CENG:" line is the
header "+CENG: 3,1" (no quoted record section) yields an empty record set,
yet isCengDataComplete returns true — the claim that the validator returns
false on a response with no qualifying record-bearing line is wrong. -/
theorem ceng_complete_empty_accepted :
    cengRecordsOf "AT+CENG?\r\n+CENG: 3,1\r\n\r\nOK\r\n" = [] ∧
      isCengDataComplete "AT+CENG?\r\n+CENG: 3,1\r\n\r\nOK\r\n" = true := by
  constructor <;> decide

/-- C2: the end-to-end discrete-dialect scenario: with registration response
`+CREG: 2,5,"0495","27B9"`, signal response `+CSQ: 18,99`, quoted operator
name `"CARRIER"` and quoted operator numeric code `"22810"` (preflight and
format-set responses acknowledged), getCellInfo succeeds and decodes
lac=1173, cid=10169, signal quality 18, mcc=228, mnc=10, operator name
"CARRIER". -/
theorem discrete_scenario_A :
    getCellInfoD
      ⟨"OK", "+CPIN: READY\r\nOK", "OK", "+CREG: 2,5,\"0495\",\"27B9\"",
        "+CSQ: 18,99", "OK", "+COPS: 0,2,\"22810\"", "OK", "+COPS: 0,0,\"CARRIER\""⟩
      ⟨0, 0, 0, 0⟩ =
      .success ⟨228, 10, 1173, 10169, "1173", "10169", 18, "CARRIER", "22810"⟩ := by
  decide

/-- C6 (code bug): when the AT+CREG? response carries no "+CREG:" tag (for
example a bare "ERROR"), the discrete getCellInfo logs an error but still
returns true: the run succeeds with empty lac/cid strings and the lac/cid
globals left at their previous values (here 9 and 10), while absence of the
operator fields is likewise tolerated.  The claim — and the function's own
doc comment ("true if all required information was successfully retrieved and
parsed") — require a false return here. -/
theorem discrete_missing_lac_cid_still_succeeds :
    getCellInfoD
      ⟨"OK", "+CPIN: READY\r\nOK", "OK", "ERROR",
        "+CSQ: 18,99", "OK", "+COPS: 0,2,\"22810\"", "OK", "+COPS: 0,0,\"CARRIER\""⟩
      ⟨7, 8, 9, 10⟩ =
      .success ⟨228, 10, 9, 10, "", "", 18, "CARRIER", "22810"⟩ := by
  decide

/-!
Lemmas: the bounded retry loop.
-/

theorem retrySearch_none_iff (c : Nat → List Char) (f : Nat) :
    ∀ i, retrySearch c f i = none ↔
      ∀ t, i ≤ t → t < i + f → pollGood (c t) = false := by
  induction f with
  | zero => intro i; simp [retrySearch]; intro t h1 h2; omega
  | succ f ih =>
    intro i
    rw [retrySearch]
    rcases hg : pollGood (c i) with _ | _
    · rw [if_neg (by simp [hg]), ih (i+1)]
      constructor
      · intro hall t h1 h2
        rcases Nat.eq_or_lt_of_le h1 with h | h
        · subst h; exact hg
        · exact hall t h (by omega)
      · intro hall t h1 h2
        exact hall t (by omega) (by omega)
    · rw [if_pos rfl]
      constructor
      · intro hs; simp at hs
      · intro hall
        have := hall i (le_refl i) (by omega)
        rw [hg] at this
        simp at this


theorem retrySearch_some_spec (c : Nat → List Char) (f : Nat) :
    ∀ i j, retrySearch c f i = some j →
      i ≤ j ∧ j < i + f ∧ pollGood (c j) = true ∧
        ∀ t, i ≤ t → t < j → pollGood (c t) = false := by
  induction f with
  | zero => intro i j h; simp [retrySearch] at h
  | succ f ih =>
    intro i j h
    rw [retrySearch] at h
    rcases hg : pollGood (c i) with _ | _
    · rw [hg, if_neg (by simp)] at h
      obtain ⟨h1, h2, h3, h4⟩ := ih (i+1) j h
      refine ⟨by omega, by omega, h3, ?_⟩
      intro t ht1 ht2
      rcases Nat.eq_or_lt_of_le ht1 with ht | ht
      · subst ht; exact hg
      · exact h4 t ht ht2
    · rw [hg, if_pos rfl] at h
      obtain rfl : i = j := by simpa using h
      exact ⟨le_refl i, by omega, hg, fun t ht1 ht2 => by omega⟩

theorem retrySearch_first (c : Nat → List Char) (f : Nat) :
    ∀ i j, i ≤ j → j < i + f → pollGood (c j) = true →
      (∀ t, i ≤ t → t < j → pollGood (c t) = false) →
      retrySearch c f i = some j := by
  induction f with
  | zero => intro i j h1 h2; omega
  | succ f ih =>
    intro i j h1 h2 hg hmin
    rw [retrySearch]
    rcases Nat.eq_or_lt_of_le h1 with h | h
    · subst h; rw [hg, if_pos rfl]
    · rw [hmin i (le_refl i) h, if_neg (by simp)]
      exact ih (i+1) j (by omega) (by omega) hg (fun t ht1 ht2 => hmin t (by omega) ht2)


/-- C3: the tabular retry controller issues at most 5 poll exchanges; once the
preflight probes pass, if no attempt below 5 is pollGood the acquisition fails
with PollExhausted after exactly 5 exchanges, and if the first pollGood
attempt is attempt j (0-based) the acquisition succeeds after exactly j+1
exchanges — so a sequence whose 3rd attempt is the first complete one costs
exactly 3 exchanges. -/
theorem tabular_retry_properties (env : TEnv) (g0 : TGlobals) :
    (getCellInfoT env g0).pollExchanges ≤ 5 ∧
    (hasTok env.atResp okTok = true → hasTok env.cpinResp readyTok = true →
      ((∀ i, i < 5 → pollGood (env.cengResp i).data = false) →
        (getCellInfoT env g0).result = .failed .pollExhausted ∧
          (getCellInfoT env g0).pollExchanges = 5) ∧
      (∀ j, j < 5 → pollGood (env.cengResp j).data = true →
        (∀ i, i < j → pollGood (env.cengResp i).data = false) →
        (getCellInfoT env g0).result = .succeeded ∧
          (getCellInfoT env g0).pollExchanges = j + 1)) := by
  unfold getCellInfoT
  by_cases hA : idxL env.atResp.data okTok 0 = -1
  · rw [if_pos (by simp [hA])]
    exact ⟨by simp, fun hat _ => absurd hA (hasTok_true_idxL _ _ (by decide) hat)⟩
  · rw [if_neg (by simp [hA])]
    by_cases hC : idxL env.cpinResp.data readyTok 0 = -1
    · rw [if_pos (by simp [hC])]
      exact ⟨by simp, fun _ hcp => absurd hC (hasTok_true_idxL _ _ (by decide) hcp)⟩
    · rw [if_neg (by simp [hC])]
      rcases hr : retrySearch (fun i => (env.cengResp i).data) 5 0 with _ | j
      · refine ⟨by simp, fun _ _ => ⟨fun _ => ⟨rfl, rfl⟩, ?_⟩⟩
        intro j hj hgood hmin
        have := retrySearch_first (fun i => (env.cengResp i).data) 5 0 j
          (Nat.zero_le _) (by omega) hgood (fun t _ ht2 => hmin t ht2)
        rw [hr] at this
        simp at this
      · have hs := retrySearch_some_spec (fun i => (env.cengResp i).data) 5 0 j hr
        refine ⟨by have h2 := hs.2.1; show j + 1 ≤ 5; omega, fun _ _ => ⟨?_, ?_⟩⟩
        · intro hall
          have := hall j (by omega)
          rw [hs.2.2.1] at this
          simp at this
        · intro j' hj' hgood hmin
          have hj : j = j' := by
            rcases lt_trichotomy j j' with h | h | h
            · have := hmin j h
              rw [hs.2.2.1] at this
              simp at this
            · exact h
            · have := hs.2.2.2 j' (Nat.zero_le _) h
              rw [hgood] at this
              simp at this
          subst hj
          exact ⟨rfl, rfl⟩

/-- C3 (witness): a concrete all-placeholder sequence fails with PollExhausted
after exactly 5 exchanges, and a concrete sequence whose 3rd attempt is the
first complete one succeeds after exactly 3 exchanges. -/
theorem tabular_retry_properties_witness :
    ((getCellInfoT ⟨"OK", "+CPIN: READY",
        fun _ => "+CENG: 0,\"0000,10,ffff,27B9,18\"\nOK"⟩
        ⟨0, 0, 0, 0, ""⟩).result = .failed .pollExhausted ∧
      (getCellInfoT ⟨"OK", "+CPIN: READY",
        fun _ => "+CENG: 0,\"0000,10,ffff,27B9,18\"\nOK"⟩
        ⟨0, 0, 0, 0, ""⟩).pollExchanges = 5) ∧
    ((getCellInfoT ⟨"OK", "+CPIN: READY",
        fun i => if i = 2 then "+CENG: 0,\"228,10,0495,27B9,18\"\nOK"
          else "+CENG: 0,\"0000,10,ffff,27B9,18\"\nOK"⟩
        ⟨0, 0, 0, 0, ""⟩).result = .succeeded ∧
      (getCellInfoT ⟨"OK", "+CPIN: READY",
        fun i => if i = 2 then "+CENG: 0,\"228,10,0495,27B9,18\"\nOK"
          else "+CENG: 0,\"0000,10,ffff,27B9,18\"\nOK"⟩
        ⟨0, 0, 0, 0, ""⟩).pollExchanges = 3) :=
  ⟨((tabular_retry_properties _ _).2 (by decide) (by decide)).1 (by decide),
    ((tabular_retry_properties _ _).2 (by decide) (by decide)).2 2 (by decide)
      (by decide) (by decide)⟩

/-- C4: a liveness-probe response without "OK" fails the tabular acquisition
immediately with the modem-unresponsive cause, zero poll exchanges and a
single non-retried probe; a SIM-readiness response without "READY" fails with
the SIM-not-ready cause and zero polls; the discrete variant behaves the same
way on its two preflight probes. -/
theorem preflight_no_retry (env : TEnv) (g0 : TGlobals) (denv : DEnv) (dg : DGlobals) :
    (hasTok env.atResp okTok = false →
      (getCellInfoT env g0).result = .failed .modemUnresponsive ∧
      (getCellInfoT env g0).pollExchanges = 0 ∧ (getCellInfoT env g0).atProbes = 1) ∧
    (hasTok env.atResp okTok = true → hasTok env.cpinResp readyTok = false →
      (getCellInfoT env g0).result = .failed .simNotReady ∧
      (getCellInfoT env g0).pollExchanges = 0 ∧ (getCellInfoT env g0).cpinProbes = 1) ∧
    (hasTok denv.atResp okTok = false → getCellInfoD denv dg = .failModem) ∧
    (hasTok denv.atResp okTok = true → hasTok denv.cpinResp readyTok = false →
      getCellInfoD denv dg = .failSim) := by
  refine ⟨?_, ?_, ?_, ?_⟩
  · intro hat
    unfold getCellInfoT
    rw [if_pos (by simp [hasTok_false_idxL _ _ hat])]
    exact ⟨rfl, rfl, rfl⟩
  · intro hat hcp
    unfold getCellInfoT
    rw [if_neg (by simp [hasTok_true_idxL _ _ (by decide) hat]),
      if_pos (by simp [hasTok_false_idxL _ _ hcp])]
    exact ⟨rfl, rfl, rfl⟩
  · intro hat
    unfold getCellInfoD
    rw [if_pos (by simp [hasTok_false_idxL _ _ hat])]
  · intro hat hcp
    unfold getCellInfoD
    rw [if_neg (by simp [hasTok_true_idxL _ _ (by decide) hat]),
      if_pos (by simp [hasTok_false_idxL _ _ hcp])]

/-- C4 (witness): a concrete "ERROR" liveness response fails the tabular run
with ModemUnresponsive and zero polls, and a concrete missing-READY SIM
response fails the discrete run with the SIM-not-ready cause. -/
theorem preflight_no_retry_witness :
    ((getCellInfoT ⟨"ERROR", "READY", fun _ => ""⟩ ⟨0, 0, 0, 0, ""⟩).result =
        .failed .modemUnresponsive ∧
      (getCellInfoT ⟨"ERROR", "READY", fun _ => ""⟩ ⟨0, 0, 0, 0, ""⟩).pollExchanges = 0 ∧
      (getCellInfoT ⟨"ERROR", "READY", fun _ => ""⟩ ⟨0, 0, 0, 0, ""⟩).atProbes = 1) ∧
    getCellInfoD ⟨"OK", "+CPIN: SIM PIN", "", "", "", "", "", "", ""⟩ ⟨0, 0, 0, 0⟩ =
      .failSim :=
  ⟨(preflight_no_retry ⟨"ERROR", "READY", fun _ => ""⟩ ⟨0, 0, 0, 0, ""⟩
      ⟨"OK", "+CPIN: SIM PIN", "", "", "", "", "", "", ""⟩ ⟨0, 0, 0, 0⟩).1 (by decide),
    (preflight_no_retry ⟨"ERROR", "READY", fun _ => ""⟩ ⟨0, 0, 0, 0, ""⟩
      ⟨"OK", "+CPIN: SIM PIN", "", "", "", "", "", "", ""⟩ ⟨0, 0, 0, 0⟩).2.2.2
      (by decide) (by decide)⟩

/-- C10: whenever the tabular getCellInfo returns true, it has just cleared
g_mcc, g_mnc, g_lac, g_cid to 0 and cellInfo to the empty string: the decoded
identifiers only reach the log, never the state handed back to the caller. -/
theorem tabular_success_clears_outputs (env : TEnv) (g0 : TGlobals)
    (h : (getCellInfoT env g0).result = .succeeded) :
    (getCellInfoT env g0).globals = ⟨0, 0, 0, 0, ""⟩ := by
  unfold getCellInfoT at h ⊢
  by_cases hA : idxL env.atResp.data okTok 0 = -1
  · rw [if_pos (by simp [hA])] at h
    simp at h
  · rw [if_neg (by simp [hA])] at h ⊢
    by_cases hC : idxL env.cpinResp.data readyTok 0 = -1
    · rw [if_pos (by simp [hC])] at h
      simp at h
    · rw [if_neg (by simp [hC])] at h ⊢
      rcases hr : retrySearch (fun i => (env.cengResp i).data) 5 0 with _ | j
      · rw [hr] at h
        simp at h
      · rfl

/-- C10 (witness): a concrete successful tabular run started with nonzero
globals (1,2,3,4,"old") and a decodable record still hands back all-zero
identifiers and an empty summary. -/
theorem tabular_success_clears_outputs_witness :
    (getCellInfoT ⟨"OK", "+CPIN: READY",
        fun _ => "+CENG: 0,\"228,10,0495,27B9,18\"\nOK"⟩
      ⟨1, 2, 3, 4, "old"⟩).result = .succeeded ∧
    (getCellInfoT ⟨"OK", "+CPIN: READY",
        fun _ => "+CENG: 0,\"228,10,0495,27B9,18\"\nOK"⟩
      ⟨1, 2, 3, 4, "old"⟩).globals = ⟨0, 0, 0, 0, ""⟩ :=
  ⟨by decide, tabular_success_clears_outputs _ _ (by decide)⟩


/-!
Lemmas: the distance estimate is strictly increasing in the signal-quality
magnitude.
-/

theorem distanceEstimate_lt (a b : ℝ) (h0 : 0 ≤ a) (hab : a < b) :
    distanceEstimate a < distanceEstimate b := by
  unfold distanceEstimate
  rw [Real.rpow_lt_rpow_left_iff (by norm_num : (1:ℝ) < 10),
    div_lt_div_iff_of_pos_right (by norm_num : (0:ℝ) < 20),
    abs_of_nonneg h0, abs_of_nonneg (le_trans h0 hab.le)]
  linarith

/-- C5 (counterexample): the claimed direction of monotonicity is wrong on the
code: the formula 10^((27.55 - 20 log10 900 + |q|)/20) grows with |q|, so the
value at signal quality 15 is NOT greater than the value at 31. -/
theorem distanceEstimate_not_decreasing :
    ¬ distanceEstimate 15 > distanceEstimate 31 :=
  not_lt.mpr (distanceEstimate_lt 15 31 (by norm_num) (by norm_num)).le

/-- C5 (amended): the distance estimate is monotonically INCREASING in the
signal-quality value: for 0 ≤ a < b (so in particular on [0,31]),
estimate(a) < estimate(b), and estimate(15) < estimate(31) — a higher
signal-quality number yields a LARGER estimated distance under this
formula, contrary to the spec's "higher quality ⇒ shorter distance". -/
theorem distanceEstimate_strict_mono (a b : ℝ) (h0 : 0 ≤ a) (hab : a < b) :
    distanceEstimate a < distanceEstimate b :=
  distanceEstimate_lt a b h0 hab

/-- C5 (witness): the amended monotonicity at the spec's own sample points 15
and 31. -/
theorem distanceEstimate_strict_mono_witness :
    (0:ℝ) ≤ 15 ∧ (15:ℝ) < 31 ∧ distanceEstimate 15 < distanceEstimate 31 :=
  ⟨by norm_num, by norm_num, distanceEstimate_strict_mono 15 31 (by norm_num) (by norm_num)⟩


/-!
Lemmas: hex decoding on pure hex-digit texts.
-/

theorem strtolDigits_eq_foldl (base : Nat) :
    ∀ (l : List Char) (a : Nat), (∀ c ∈ l, (digitValB base c).isSome = true) →
      strtolDigits base l a =
        l.foldl (fun x c => x * base + (digitValB base c).getD 0) a := by
  intro l
  induction l with
  | nil => intro a _; rfl
  | cons c t ih =>
    intro a hall
    have hc := hall c (List.mem_cons_self _ _)
    rcases hd : digitValB base c with _ | d
    · rw [hd] at hc; simp at hc
    · rw [strtolDigits, hd, List.foldl_cons, hd]
      exact ih _ (fun x hx => hall x (List.mem_cons_of_mem _ hx))

theorem hexDigit_props (c : Char) (h : (hexDigitVal c).isSome = true) :
    isSpaceC c = false ∧ c ≠ '-' ∧ c ≠ '+' ∧ c ≠ 'x' ∧ c ≠ 'X' := by
  refine ⟨?_, ?_, ?_, ?_, ?_⟩
  · rcases hs : isSpaceC c with _ | _
    · rfl
    · exfalso
      unfold isSpaceC at hs
      simp only [Bool.or_eq_true, decide_eq_true_eq] at hs
      rcases hs with ((((h1 | h1) | h1) | h1) | h1) | h1 <;>
        (subst h1; exact absurd h (by decide))
  · intro h1; subst h1; exact absurd h (by decide)
  · intro h1; subst h1; exact absurd h (by decide)
  · intro h1; subst h1; exact absurd h (by decide)
  · intro h1; subst h1; exact absurd h (by decide)

/-- For a text headed by a base-digit and made only of base-digits, strtol
skips nothing, sees no sign and no 0x prefix, and folds all the digits. -/
theorem strtolModel_all_digits (base : Nat) (c : Char) (t : List Char)
    (hall : ∀ x ∈ c :: t, (digitValB base x).isSome = true)
    (hprops : ∀ x, (digitValB base x).isSome = true →
      isSpaceC x = false ∧ x ≠ '-' ∧ x ≠ '+' ∧ x ≠ 'x' ∧ x ≠ 'X') :
    strtolModel base (c :: t) =
      min (((c :: t).foldl (fun x d => x * base + (digitValB base d).getD 0) 0 : Nat) : Int)
        LONG_MAX := by
  have hc := hall c (List.mem_cons_self _ _)
  obtain ⟨hsp, hminus, hplus, _, _⟩ := hprops c hc
  have h1 : strtolSkipWs (c :: t) = c :: t := by
    unfold strtolSkipWs
    rw [List.dropWhile_cons, hsp]
    simp
  have h2 : strtolSign (c :: t) = false := by
    simp [strtolSign, hminus]
  have h3 : strtolAfterSign (c :: t) = c :: t := by
    simp [strtolAfterSign, hminus, hplus]
  have h4 : strtolStrip0x base (c :: t) = c :: t := by
    by_cases hb : base = 16
    · subst hb
      rcases t with _ | ⟨x, t2⟩
      · simp [strtolStrip0x]
      · have hx := hall x (List.mem_cons_of_mem _ (List.mem_cons_self _ _))
        obtain ⟨_, _, _, hxx, hxX⟩ := hprops x hx
        simp [strtolStrip0x, hxx, hxX]
    · simp [strtolStrip0x, hb]
  simp only [strtolModel, h1, h2, h3, h4, Bool.false_eq_true, if_false]
  rw [strtolDigits_eq_foldl base (c :: t) 0 hall]

/-- C8 (amended): hex decoding is base-16 exact for every hexadecimal text
whose value fits in a 32-bit signed long, clamps to LONG_MAX = 2147483647 on
larger values (rather than staying exact), and returns 0 on empty or invalid
text instead of raising an error. -/
theorem decodeHex_exact (s : String) (h : isHexStr s = true) :
    (hexVal s ≤ 2147483647 → decodeHex s = (hexVal s : Int)) ∧
    (2147483647 < hexVal s → decodeHex s = 2147483647) ∧
    decodeHex "" = 0 ∧ decodeHex "zz" = 0 := by
  unfold isHexStr at h
  simp only [Bool.and_eq_true, List.all_eq_true] at h
  obtain ⟨hne, hall⟩ := h
  have key : decodeHex s = min ((hexVal s : Nat) : Int) LONG_MAX := by
    unfold decodeHex
    rcases hd : s.data with _ | ⟨c, t⟩
    · rw [hd] at hne; simp at hne
    · have hall2 : ∀ x ∈ c :: t, (digitValB 16 x).isSome = true := by
        intro x hx
        have := hall x
        rw [hd] at this
        simpa [digitValB] using this hx
      rw [strtolModel_all_digits 16 c t hall2
        (fun x hx => hexDigit_props x (by simpa [digitValB] using hx))]
      unfold hexVal
      rw [hd]
      simp [digitValB]
  refine ⟨?_, ?_, by decide, by decide⟩
  · intro hle
    rw [key]
    unfold LONG_MAX
    omega
  · intro hgt
    rw [key]
    unfold LONG_MAX
    omega

/-- C8 (counterexample): the hex decoder is not base-16 exact on every
hexadecimal text: "FFFFFFFF" has base-16 value 4294967295 but strtol on a
32-bit long clamps it to LONG_MAX = 2147483647. -/
theorem decodeHex_overflow_clamps :
    isHexStr "FFFFFFFF" = true ∧ hexVal "FFFFFFFF" = 4294967295 ∧
      decodeHex "FFFFFFFF" = 2147483647 ∧ decodeHex "FFFFFFFF" ≠ 4294967295 :=
  ⟨by decide, by decide, by decide, by decide⟩

/-- C8 (witness): the amended exactness at the spec's own example "27B9". -/
theorem decodeHex_exact_witness :
    isHexStr "27B9" = true ∧ hexVal "27B9" ≤ 2147483647 ∧
      decodeHex "27B9" = (hexVal "27B9" : Int) ∧ hexVal "27B9" = 10169 :=
  ⟨by decide, by decide, (decodeHex_exact "27B9" (by decide)).1 (by decide), by decide⟩


/-!
Lemmas: character classes, occurrences, substring slices, and the decimal
digit printer natStr with its toInt round-trip.
-/

theorem decDigit_isHex (c : Char) (h : (decDigitVal c).isSome = true) :
    (hexDigitVal c).isSome = true := by
  unfold decDigitVal at h
  unfold hexDigitVal
  by_cases hp : ('0' ≤ c && c ≤ '9') = true
  · rw [if_pos hp]; rfl
  · rw [if_neg hp] at h; simp at h

theorem decDigit_props (c : Char) (h : (decDigitVal c).isSome = true) :
    isSpaceC c = false ∧ c ≠ '-' ∧ c ≠ '+' ∧ c ≠ 'x' ∧ c ≠ 'X' ∧
      c ≠ ',' ∧ c ≠ '"' ∧ c ≠ '\n' := by
  obtain ⟨h1, h2, h3, h4, h5⟩ := hexDigit_props c (decDigit_isHex c h)
  refine ⟨h1, h2, h3, h4, h5, ?_, ?_, ?_⟩
  · intro hc; subst hc; exact absurd h (by decide)
  · intro hc; subst hc; exact absurd h (by decide)
  · intro hc; subst hc; exact absurd h (by decide)

theorem firstOcc_of_isPre (pat l : List Char) (h : pat.isPrefixOf l = true) :
    firstOcc pat l = some 0 := by
  rcases l with _ | ⟨c, cs⟩
  · rcases pat with _ | _
    · rfl
    · simp [List.isPrefixOf] at h
  · rw [firstOcc, if_pos h]

theorem firstOcc_single_none (c : Char) (A : List Char) (h : c ∉ A) :
    firstOcc [c] A = none := by
  induction A with
  | nil => rfl
  | cons a A ih =>
    have hca : ¬ (List.isPrefixOf [c] (a :: A)) = true := by
      simp only [List.isPrefixOf, Bool.and_true, beq_iff_eq]
      exact fun hc => h (hc ▸ List.mem_cons_self _ _)
    rw [firstOcc, if_neg hca, ih (fun hm => h (List.mem_cons_of_mem _ hm))]
    rfl

theorem firstOcc_single_append (c : Char) (A B : List Char) (h : c ∉ A) :
    firstOcc [c] (A ++ c :: B) = some A.length := by
  induction A with
  | nil =>
    simp only [List.nil_append, List.length_nil]
    exact firstOcc_of_isPre [c] (c :: B) (by simp [List.isPrefixOf])
  | cons a A ih =>
    have hca : ¬ (List.isPrefixOf [c] (a :: (A ++ c :: B))) = true := by
      simp only [List.isPrefixOf, Bool.and_true, beq_iff_eq]
      exact fun hc => h (hc ▸ List.mem_cons_self _ _)
    rw [List.cons_append, firstOcc, if_neg hca,
      ih (fun hm => h (List.mem_cons_of_mem _ hm))]
    rfl

theorem subA_nat (s : List Char) (a b : Nat) (hab : a ≤ b) (hb : b ≤ s.length) :
    subA s (a : Int) (b : Int) = (s.take b).drop a := by
  simp only [subA]
  rw [if_neg (by omega : ¬ (a : Int) < 0), if_neg (by omega : ¬ (b : Int) < 0),
    if_neg (by omega : ¬ (a : Int) > (b : Int)), if_neg (by omega : ¬ (a : Int) > (b : Int))]
  by_cases hlen : (a : Int) ≥ (s.length : Int)
  · rw [if_pos hlen]
    have : (s.take b).length ≤ a := by
      rw [List.length_take]
      omega
    exact (List.drop_eq_nil_of_le this).symm
  · rw [if_neg hlen]
    have h1 : (b : Int).toNat = b := Int.toNat_natCast b
    have h2 : (a : Int).toNat = a := Int.toNat_natCast a
    rw [h1, h2, Nat.min_eq_left hb]

theorem strtolModel_cons_space (base : Nat) (s : List Char) :
    strtolModel base (' ' :: s) = strtolModel base s := by
  unfold strtolModel strtolSkipWs
  rw [List.dropWhile_cons, if_pos (by decide : isSpaceC ' ' = true)]

theorem natStrGo_fuel (f : Nat) : ∀ n, n < f → natStrGo f n = natStr n := by
  induction f using Nat.strong_induction_on with
  | _ f ih =>
    intro n hn
    rcases f with _ | f
    · omega
    · unfold natStr
      conv_lhs => rw [natStrGo]
      conv_rhs => rw [natStrGo]
      by_cases h10 : n < 10
      · simp only [if_pos h10]
      · simp only [if_neg h10]
        have hdiv : n / 10 < n := Nat.div_lt_self (by omega) (by omega)
        rw [ih f (by omega) (n / 10) (by omega), ih n (by omega) (n / 10) hdiv]

theorem natStr_lt10 (n : Nat) (h : n < 10) : natStr n = [digitChar n] := by
  rw [natStr, natStrGo, if_pos h]

theorem natStr_ge10 (n : Nat) (h : ¬ n < 10) :
    natStr n = natStr (n / 10) ++ [digitChar (n % 10)] := by
  conv_lhs => rw [natStr, natStrGo]
  rw [if_neg h, natStrGo_fuel n (n / 10) (Nat.div_lt_self (by omega) (by omega))]

theorem decDigitVal_digitChar (m : Nat) (h : m < 10) :
    decDigitVal (digitChar m) = some m := by
  interval_cases m <;> decide

theorem natStr_all_digits (n : Nat) : ∀ c ∈ natStr n, (decDigitVal c).isSome = true := by
  induction n using Nat.strong_induction_on with
  | _ n ih =>
    by_cases h10 : n < 10
    · rw [natStr_lt10 n h10]
      intro c hc
      rw [List.mem_singleton.mp hc, decDigitVal_digitChar n h10]
      rfl
    · rw [natStr_ge10 n h10]
      intro c hc
      rcases List.mem_append.mp hc with hc | hc
      · exact ih (n / 10) (Nat.div_lt_self (by omega) (by omega)) c hc
      · rw [List.mem_singleton.mp hc,
          decDigitVal_digitChar (n % 10) (Nat.mod_lt _ (by omega))]
        rfl

theorem natStr_ne_nil (n : Nat) : natStr n ≠ [] := by
  by_cases h10 : n < 10
  · rw [natStr_lt10 n h10]; simp
  · rw [natStr_ge10 n h10]; simp

theorem natStr_foldl (n : Nat) :
    (natStr n).foldl (fun a c => a * 10 + (decDigitVal c).getD 0) 0 = n := by
  induction n using Nat.strong_induction_on with
  | _ n ih =>
    by_cases h10 : n < 10
    · rw [natStr_lt10 n h10]
      simp [decDigitVal_digitChar n h10]
    · rw [natStr_ge10 n h10, List.foldl_append]
      rw [ih (n / 10) (Nat.div_lt_self (by omega) (by omega))]
      simp only [List.foldl_cons, List.foldl_nil,
        decDigitVal_digitChar (n % 10) (Nat.mod_lt _ (by omega)), Option.getD_some]
      omega

theorem toIntA_natStr (n : Nat) (h : n ≤ 2147483647) : toIntA (natStr n) = n := by
  rcases hd : natStr n with _ | ⟨c, t⟩
  · exact absurd hd (natStr_ne_nil n)
  · unfold toIntA
    have hall : ∀ x ∈ c :: t, (digitValB 10 x).isSome = true := by
      intro x hx
      have := natStr_all_digits n x (hd ▸ hx)
      simpa [digitValB] using this
    rw [strtolModel_all_digits 10 c t hall
      (fun x hx => by
        have hxd : (decDigitVal x).isSome = true := by simpa [digitValB] using hx
        obtain ⟨p1, p2, p3, p4, p5, _, _, _⟩ := decDigit_props x hxd
        exact ⟨p1, p2, p3, p4, p5⟩)]
    have hfold : (c :: t).foldl (fun x d => x * 10 + (digitValB 10 d).getD 0) 0 = n := by
      have := natStr_foldl n
      rw [hd] at this
      simpa [digitValB] using this
    rw [hfold, min_eq_left (by unfold LONG_MAX; exact_mod_cast h)]



/-- C9 (amended): for the discrete signal-quality parse: a response without
the "+CSQ:" tag yields the sentinel 99; a well-formed response
"+CSQ: <digits>,..." yields the integer value preceding the comma (for any
value that fits in int16, with no range check); but unparsable text between
the tag and the comma yields 0 via toInt — not the sentinel 99 — and
out-of-range values such as 45 are passed through unchanged. -/
theorem parseCSQ_spec :
    (∀ s : String, hasTok s csqTok = false → parseCSQ s.data = 99) ∧
    (∀ (n : Nat) (rest : List Char), n ≤ 32767 →
      parseCSQ ("+CSQ: ".data ++ natStr n ++ ',' :: rest) = (n : Int)) ∧
    (parseCSQ "+CSQ: 18".data = 99 ∧ parseCSQ "+CSQ: ab,99".data = 0 ∧
      parseCSQ "+CSQ: 45,99".data = 45) := by
  refine ⟨?_, ?_, by decide, by decide, by decide⟩
  · intro s hs
    have hidx : idxL s.data csqTok 0 = -1 :=
      firstOcc_none_idxL _ _ ((hasTok_false_iff s csqTok).mp hs)
    simp only [parseCSQ, hidx]
    rfl
  · intro n rest hn
    have hsplit : "+CSQ: ".data = csqTok ++ [' '] := rfl
    set A : List Char := "+CSQ: ".data ++ natStr n with hA
    have hnl : A.length = 6 + (natStr n).length := by
      rw [hA, List.length_append]
      rfl
    have hcomma : (',' : Char) ∉ A := by
      rw [hA]
      intro hmem
      rcases List.mem_append.mp hmem with hm | hm
      · exact absurd hm (by decide)
      · exact absurd (natStr_all_digits n ',' hm) (by decide)
    have hpreA : csqTok <+: A := by
      rw [hA, hsplit, List.append_assoc]
      exact List.prefix_append _ _
    have hpre : List.isPrefixOf csqTok (A ++ ',' :: rest) = true := by
      rw [List.isPrefixOf_iff_prefix]
      exact hpreA.trans (List.prefix_append _ _)
    have hidx : idxL (A ++ ',' :: rest) csqTok 0 = 0 := by
      have := idxL_zero_of_firstOcc (A ++ ',' :: rest) csqTok 0 (by decide)
        (firstOcc_of_isPre _ _ hpre)
      simpa using this
    have hoc : firstOcc commaTok (A ++ ',' :: rest) = some A.length :=
      firstOcc_single_append ',' A rest hcomma
    have hco : idxL (A ++ ',' :: rest) commaTok 0 = (A.length : Int) :=
      idxL_zero_of_firstOcc _ _ _ (by decide) hoc
    have hb1 : 6 ≤ A.length := by omega
    have hb2 : A.length ≤ (A ++ ',' :: rest).length := by
      have h := List.length_append A (',' :: rest)
      omega
    have hsub : subA (A ++ ',' :: rest) ((6 : Nat) : Int) ((A.length : Nat) : Int) =
        natStr n := by
      rw [subA_nat _ 6 A.length hb1 hb2, List.take_left, hA,
        List.drop_left' (by rfl : ("+CSQ: ".data).length = 6)]
    have hsub6 : subA (A ++ ',' :: rest) (0 + 6) ((A.length : Nat) : Int) = natStr n := by
      rw [show ((0 : Int) + 6) = ((6 : Nat) : Int) by norm_num]
      exact hsub
    simp only [parseCSQ, hidx, hco]
    rw [if_neg (by decide), if_neg (by simp only [beq_iff_eq]; omega), hsub6,
      toIntA_natStr n (by omega)]
    unfold toInt16
    omega

/-- C9 (counterexample): out-of-range or unparsable signal-quality text does
NOT yield the sentinel 99: "+CSQ: 45,99" parses to 45 (no range check) and
"+CSQ: ab,99" parses to 0 (toInt of unparsable text). -/
theorem parseCSQ_no_sentinel_on_bad :
    parseCSQ "+CSQ: 45,99".data = 45 ∧ parseCSQ "+CSQ: 45,99".data ≠ 99 ∧
      parseCSQ "+CSQ: ab,99".data = 0 ∧ parseCSQ "+CSQ: ab,99".data ≠ 99 :=
  ⟨by decide, by decide, by decide, by decide⟩

/-- C9 (witness): the amended behavior at concrete inputs: a response without
the tag gives 99, and "+CSQ: 18,99" reads 18. -/
theorem parseCSQ_spec_witness :
    hasTok "hello" csqTok = false ∧ parseCSQ "hello".data = 99 ∧
      (18 : Nat) ≤ 32767 ∧
      parseCSQ ("+CSQ: ".data ++ natStr 18 ++ ',' :: "99".data) = 18 :=
  ⟨by decide, parseCSQ_spec.1 "hello" (by decide), by decide,
    parseCSQ_spec.2.1 18 "99".data (by decide)⟩



/-!
Lemmas: rendered record lines and how the tabular collection loop walks them.
-/

theorem idxL_nat_some (s pat : List Char) (k m : Nat) (hk : k < s.length)
    (h : firstOcc pat (s.drop k) = some m) :
    idxL s pat (k : Int) = ((k + m : Nat) : Int) := by
  simp only [idxL]
  rw [if_neg (by omega : ¬ (k : Int) < 0), if_neg (by omega), Int.toNat_natCast, h]
  show (k : Int) + (m : Int) = ((k + m : Nat) : Int)
  push_cast
  ring

theorem trimL_of_head_last (c1 : Char) (mid : List Char) (c2 : Char)
    (h1 : isSpaceC c1 = false) (h2 : isSpaceC c2 = false) :
    trimL (c1 :: (mid ++ [c2])) = c1 :: (mid ++ [c2]) := by
  unfold trimL
  rw [List.dropWhile_cons, h1]
  simp only [Bool.false_eq_true, if_false]
  rw [show (c1 :: (mid ++ [c2])).reverse = c2 :: (mid.reverse ++ [c1]) by simp]
  rw [List.dropWhile_cons, h2]
  simp only [Bool.false_eq_true, if_false]
  simp

theorem natStr_no_specials (n : Nat) :
    (',' ∉ natStr n) ∧ ('"' ∉ natStr n) ∧ ('\n' ∉ natStr n) ∧ (' ' ∉ natStr n) := by
  refine ⟨fun hm => ?_, fun hm => ?_, fun hm => ?_, fun hm => ?_⟩ <;>
    exact absurd (natStr_all_digits n _ hm) (by decide)



theorem len_ceng7 : ("+CENG: ".data).length = 7 := rfl

theorem lineBody_len (i : Nat) (d : List Char) :
    (lineBody i d).length = 10 + (natStr i).length + d.length := by
  simp [lineBody, List.length_append, len_ceng7]
  omega

theorem lineBody_decomp (i : Nat) (d : List Char) :
    lineBody i d = ("+CENG: ".data ++ natStr i) ++ ',' :: ('"' :: (d ++ ['"'])) := by
  simp [lineBody, List.append_assoc]

theorem headA_len (i : Nat) : ("+CENG: ".data ++ natStr i).length = 7 + (natStr i).length := by
  rw [List.length_append, len_ceng7]

theorem comma_notin_headA (i : Nat) : (',' : Char) ∉ "+CENG: ".data ++ natStr i := by
  intro hm
  rcases List.mem_append.mp hm with hm | hm
  · exact absurd hm (by decide)
  · exact (natStr_no_specials i).1 hm

theorem lineBody_comma (i : Nat) (d : List Char) :
    firstOcc commaTok (lineBody i d) = some (7 + (natStr i).length) := by
  have hct : commaTok = [','] := rfl
  rw [hct, lineBody_decomp,
    firstOcc_single_append ',' ("+CENG: ".data ++ natStr i) _ (comma_notin_headA i),
    headA_len]

theorem lineBody_comma1 (i : Nat) (d : List Char) :
    idxL (lineBody i d) commaTok 0 = ((7 + (natStr i).length : Nat) : Int) :=
  idxL_zero_of_firstOcc _ _ _ (by decide) (lineBody_comma i d)

theorem lineBody_index (i : Nat) (d : List Char) (hi : i ≤ 2147483647) :
    toIntA (subA (lineBody i d) 6 ((7 + (natStr i).length : Nat) : Int)) = (i : Int) := by
  rw [show (6 : Int) = ((6 : Nat) : Int) by norm_num,
    subA_nat _ 6 (7 + (natStr i).length) (by omega) (by rw [lineBody_len]; omega)]
  have htake : (lineBody i d).take (7 + (natStr i).length) = "+CENG: ".data ++ natStr i := by
    rw [lineBody_decomp]
    exact List.take_left' (headA_len i)
  have hdrop : ("+CENG: ".data ++ natStr i).drop 6 = ' ' :: natStr i := by
    rw [show "+CENG: ".data ++ natStr i = "+CENG:".data ++ (' ' :: natStr i) from rfl]
    exact List.drop_left' rfl
  rw [htake, hdrop]
  show strtolModel 10 (' ' :: natStr i) = (i : Int)
  rw [strtolModel_cons_space]
  exact toIntA_natStr i hi

theorem lineBody_q1 (i : Nat) (d : List Char) (hd : goodData d) :
    idxL (lineBody i d) qTok ((7 + (natStr i).length : Nat) : Int) =
      ((7 + (natStr i).length + 1 : Nat) : Int) := by
  apply idxL_nat_some _ _ _ 1 (by rw [lineBody_len]; omega)
  have hdrop : (lineBody i d).drop (7 + (natStr i).length) = ',' :: ('"' :: (d ++ ['"'])) := by
    rw [lineBody_decomp]
    exact List.drop_left' (headA_len i)
  rw [hdrop, show qTok = ['"'] from rfl,
    show (',' :: ('"' :: (d ++ ['"']))) = [','] ++ '"' :: (d ++ ['"']) from rfl]
  exact firstOcc_single_append '"' [','] _ (by decide)

theorem lineBody_q2 (i : Nat) (d : List Char) (hd : goodData d) :
    idxL (lineBody i d) qTok (((7 + (natStr i).length + 1 : Nat) : Int) + 1) =
      ((7 + (natStr i).length + 2 + d.length : Nat) : Int) := by
  rw [show (((7 + (natStr i).length + 1 : Nat) : Int) + 1) =
    ((7 + (natStr i).length + 2 : Nat) : Int) by push_cast; ring]
  have hk : 7 + (natStr i).length + 2 + d.length = (7 + (natStr i).length + 2) + d.length := by
    omega
  rw [hk]
  apply idxL_nat_some _ _ _ d.length (by rw [lineBody_len]; omega)
  have hdec2 : lineBody i d =
      (("+CENG: ".data ++ natStr i) ++ [',', '"']) ++ (d ++ ['"']) := by
    rw [lineBody_decomp]
    simp [List.append_assoc]
  have hdrop : (lineBody i d).drop (7 + (natStr i).length + 2) = d ++ ['"'] := by
    rw [hdec2]
    exact List.drop_left' (by rw [List.length_append, headA_len]; rfl)
  rw [hdrop, show qTok = ['"'] from rfl, show d ++ ['"'] = d ++ '"' :: ([] : List Char) from rfl]
  exact firstOcc_single_append '"' d [] hd.1

theorem lineBody_data (i : Nat) (d : List Char) (hd : goodData d) :
    subA (lineBody i d) (((7 + (natStr i).length + 1 : Nat) : Int) + 1)
      ((7 + (natStr i).length + 2 + d.length : Nat) : Int) = d := by
  rw [show (((7 + (natStr i).length + 1 : Nat) : Int) + 1) =
    ((7 + (natStr i).length + 2 : Nat) : Int) by push_cast; ring]
  rw [subA_nat _ (7 + (natStr i).length + 2) (7 + (natStr i).length + 2 + d.length)
    (by omega) (by rw [lineBody_len]; omega)]
  have hdec2 : lineBody i d =
      ((("+CENG: ".data ++ natStr i) ++ [',', '"']) ++ d) ++ ['"'] := by
    rw [lineBody_decomp]
    simp [List.append_assoc]
  have hlenAD : ((("+CENG: ".data ++ natStr i) ++ [',', '"']) ++ d).length =
      7 + (natStr i).length + 2 + d.length := by
    rw [List.length_append, List.length_append, headA_len]
    rfl
  have htake : (lineBody i d).take (7 + (natStr i).length + 2 + d.length) =
      (("+CENG: ".data ++ natStr i) ++ [',', '"']) ++ d := by
    rw [hdec2]
    exact List.take_left' hlenAD
  rw [htake]
  exact List.drop_left' (by rw [List.length_append, headA_len]; rfl)



theorem trimL_lineBody (i : Nat) (d : List Char) : trimL (lineBody i d) = lineBody i d := by
  have hform : lineBody i d =
      '+' :: (("CENG: ".data ++ natStr i ++ [','] ++ ['"'] ++ d) ++ ['"']) := rfl
  rw [hform]
  exact trimL_of_head_last '+' _ '"' (by decide) (by decide)

theorem nl_notin_lineBody (i : Nat) (d : List Char) (hd : goodData d) :
    '\n' ∉ lineBody i d := by
  intro hm
  rw [lineBody_decomp] at hm
  rcases List.mem_append.mp hm with hm | hm
  · rcases List.mem_append.mp hm with hm | hm
    · exact absurd hm (by decide)
    · exact (natStr_no_specials i).2.2.1 hm
  · rcases List.mem_cons.mp hm with hm | hm
    · exact absurd hm (by decide)
    · rcases List.mem_cons.mp hm with hm | hm
      · exact absurd hm (by decide)
      · rcases List.mem_append.mp hm with hm | hm
        · exact hd.2 hm
        · exact absurd hm (by decide)

theorem firstOcc_nl_line (i : Nat) (d Z : List Char) (hd : goodData d) :
    firstOcc nlTok (lineBody i d ++ '\n' :: Z) = some (lineBody i d).length := by
  rw [show nlTok = ['\n'] from rfl]
  exact firstOcc_single_append '\n' _ _ (nl_notin_lineBody i d hd)

theorem cengTok_pre (i : Nat) (d Z : List Char) :
    List.isPrefixOf cengTok (lineBody i d ++ Z) = true := by
  rw [List.isPrefixOf_iff_prefix]
  have hp1 : cengTok <+: "+CENG: ".data := List.isPrefixOf_iff_prefix.mp (by decide)
  have hp2 : "+CENG: ".data <+: lineBody i d ++ Z :=
    ⟨natStr i ++ (',' :: ('"' :: (d ++ ['"']))) ++ Z, by simp [lineBody, List.append_assoc]⟩
  exact hp1.trans hp2

theorem collectGo_core (f : Nat) (rest : List Char) (k : Nat) (i : Nat) (d Z : List Char)
    (acc : List (Int × List Char)) (mx : Int) (hi : i ≤ 2147483647) (hd : goodData d)
    (hocc : firstOcc cengTok rest = some k)
    (htl : rest.drop k = lineBody i d ++ '\n' :: Z) :
    collectGo (f+1) rest acc mx =
      collectGo f ('\n' :: Z) (insertA acc (i : Int) (lineBody i d))
        (if (i : Int) > mx then (i : Int) else mx) := by
  simp only [collectGo, hocc]
  rw [htl, firstOcc_nl_line i d Z hd]
  simp only [Option.getD_some]
  rw [List.take_left, trimL_lineBody, lineBody_comma1,
    if_neg (by simp only [beq_iff_eq]; omega), lineBody_index i d hi, List.drop_left]

theorem renderList_cons (i : Nat) (d : List Char) (t : List (Nat × List Char)) :
    renderList ((i, d) :: t) = lineBody i d ++ '\n' :: renderList t := by
  show renderLine i d ++ renderList t = _
  simp [renderLine, List.append_assoc]

theorem collectGo_render (M : List (Nat × List Char))
    (hM : ∀ p ∈ M, goodData p.2 ∧ p.1 ≤ 2147483647) :
    ∀ (f : Nat) (acc : List (Int × List Char)) (mx : Int), M.length ≤ f →
      collectGo (f+1) (renderList M) acc mx =
        (M.foldl (fun a p => insertA a (p.1 : Int) (lineBody p.1 p.2)) acc,
          M.foldl (fun m p => if (p.1 : Int) > m then (p.1 : Int) else m) mx) ∧
      collectGo (f+1) ('\n' :: renderList M) acc mx =
        (M.foldl (fun a p => insertA a (p.1 : Int) (lineBody p.1 p.2)) acc,
          M.foldl (fun m p => if (p.1 : Int) > m then (p.1 : Int) else m) mx) := by
  induction M with
  | nil =>
    intro f acc mx _
    constructor
    · simp only [renderList, collectGo, show firstOcc cengTok [] = none from by decide,
        List.foldl_nil]
    · simp only [renderList, collectGo,
        show firstOcc cengTok ['\n'] = none from by decide, List.foldl_nil]
  | cons p t ih =>
    intro f acc mx hf
    obtain ⟨i, d⟩ := p
    obtain ⟨hd, hi⟩ := hM (i, d) (List.mem_cons_self _ _)
    have hM' : ∀ q ∈ t, goodData q.2 ∧ q.1 ≤ 2147483647 :=
      fun q hq => hM q (List.mem_cons_of_mem _ hq)
    rcases f with _ | f
    · simp at hf
    · have hf' : t.length ≤ f := by
        simp at hf
        omega
      have hocc0 : firstOcc cengTok (renderList ((i, d) :: t)) = some 0 := by
        rw [renderList_cons]
        exact firstOcc_of_isPre _ _ (cengTok_pre i d _)
      have hnp : ¬ (List.isPrefixOf cengTok ('\n' :: renderList ((i, d) :: t))) = true := by
        rw [show cengTok = '+' :: "CENG:".data from rfl]
        simp [List.isPrefixOf]
      have hocc1 : firstOcc cengTok ('\n' :: renderList ((i, d) :: t)) = some 1 := by
        rw [firstOcc, if_neg hnp, hocc0]
        rfl
      constructor
      · rw [collectGo_core (f+1) _ 0 i d (renderList t) acc mx hi hd hocc0
          (by rw [List.drop_zero, renderList_cons])]
        rw [List.foldl_cons, List.foldl_cons]
        exact (ih hM' f _ _ hf').2
      · rw [collectGo_core (f+1) _ 1 i d (renderList t) acc mx hi hd hocc1
          (by rw [renderList_cons]; rfl)]
        rw [List.foldl_cons, List.foldl_cons]
        exact (ih hM' f _ _ hf').2



theorem lookupA_insertA (m : List (Int × List Char)) (i : Int) (v : List Char) (j : Int) :
    lookupA (insertA m i v) j = if j = i then some v else lookupA m j := by
  induction m with
  | nil =>
    show lookupA [(i, v)] j = _
    by_cases hj : j = i <;> simp [lookupA, hj]
  | cons p t ih =>
    obtain ⟨k, w⟩ := p
    by_cases hik : i = k
    · subst hik
      show lookupA (insertA ((i, w) :: t) i v) j = _
      rw [insertA, if_pos rfl]
      by_cases hj : j = i <;> simp [lookupA, hj]
    · show lookupA (insertA ((k, w) :: t) i v) j = _
      rw [insertA, if_neg hik]
      by_cases hjk : j = k
      · have hji : ¬ j = i := fun h => hik (by omega)
        have hki : ¬ k = i := fun h => hik h.symm
        simp [lookupA, hjk, hji, hki]
      · simp [lookupA, hjk, ih]

theorem lookupA_fold_notmem (M : List (Nat × List Char)) (j : Int)
    (h : ∀ p ∈ M, (p.1 : Int) ≠ j) :
    ∀ acc, lookupA
        (M.foldl (fun a p => insertA a (p.1 : Int) (lineBody p.1 p.2)) acc) j =
      lookupA acc j := by
  induction M with
  | nil => intro acc; rfl
  | cons p t ih =>
    intro acc
    rw [List.foldl_cons, ih (fun q hq => h q (List.mem_cons_of_mem _ hq)),
      lookupA_insertA, if_neg (fun hji => (h p (List.mem_cons_self _ _)) hji.symm)]

theorem lookupA_fold_mem (M : List (Nat × List Char)) :
    ∀ (i : Nat) (d : List Char), (i, d) ∈ M → (M.map Prod.fst).Nodup →
    ∀ acc, lookupA
        (M.foldl (fun a p => insertA a (p.1 : Int) (lineBody p.1 p.2)) acc) (i : Int) =
      some (lineBody i d) := by
  induction M with
  | nil => intro i d hmem; cases hmem
  | cons p t ih =>
    intro i d hmem hnd acc
    rw [List.map_cons] at hnd
    obtain ⟨hhead, htail⟩ := List.nodup_cons.mp hnd
    rw [List.foldl_cons]
    rcases List.mem_cons.mp hmem with he | hm
    · have h1 : p.1 = i := by rw [← he]
      have h2 : p.2 = d := by rw [← he]
      rw [h1, h2]
      have hnotin : ∀ q ∈ t, (q.1 : Int) ≠ (i : Int) := by
        intro q hq heq
        have hq1 : q.1 = i := by exact_mod_cast heq
        rw [← h1] at hq1
        exact hhead (hq1 ▸ List.mem_map_of_mem Prod.fst hq)
      rw [lookupA_fold_notmem t _ hnotin, lookupA_insertA, if_pos rfl]
    · exact ih i d hm htail _

theorem fold_max_ge (M : List (Nat × List Char)) :
    ∀ mx : Int, mx ≤ M.foldl (fun m p => if (p.1 : Int) > m then (p.1 : Int) else m) mx ∧
      ∀ p ∈ M, (p.1 : Int) ≤
        M.foldl (fun m p => if (p.1 : Int) > m then (p.1 : Int) else m) mx := by
  induction M with
  | nil => intro mx; exact ⟨le_refl _, by simp⟩
  | cons p t ih =>
    intro mx
    rw [List.foldl_cons]
    have hstep : mx ≤ (if (p.1 : Int) > mx then (p.1 : Int) else mx) := by
      split <;> omega
    have hstep2 : (p.1 : Int) ≤ (if (p.1 : Int) > mx then (p.1 : Int) else mx) := by
      split <;> omega
    refine ⟨le_trans hstep (ih _).1, ?_⟩
    intro q hq
    rcases List.mem_cons.mp hq with he | hm
    · subst he
      exact le_trans hstep2 (ih _).1
    · exact (ih _).2 q hm

theorem length_filterMap_eq_countP {α β : Type} (g : α → Option β) (l : List α) :
    (l.filterMap g).length = l.countP (fun a => (g a).isSome) := by
  induction l with
  | nil => rfl
  | cons a t ih =>
    rw [List.filterMap_cons, List.countP_cons]
    rcases hg : g a with _ | b
    · simp [hg, ih]
    · simp [hg, ih]

theorem countP_range_mem (N : Nat) (K : List Nat) (hnd : K.Nodup)
    (hsub : ∀ k ∈ K, k < N) :
    (List.range N).countP (fun n => n ∈ K) = K.length := by
  rw [List.countP_eq_length_filter]
  have hperm : List.Perm ((List.range N).filter (fun n => n ∈ K)) K := by
    apply (List.perm_ext_iff_of_nodup ((List.nodup_range N).filter _) hnd).mpr
    intro a
    simp only [List.mem_filter, List.mem_range, decide_eq_true_eq]
    exact ⟨fun h => h.2, fun h => ⟨hsub a h, h⟩⟩
  exact hperm.length_eq

theorem renderList_len_ge (M : List (Nat × List Char)) :
    M.length ≤ (renderList M).length := by
  induction M with
  | nil => simp [renderList]
  | cons p t ih =>
    show (p :: t).length ≤ (renderLine p.1 p.2 ++ renderList t).length
    rw [List.length_append, List.length_cons]
    have h1 : 1 ≤ (renderLine p.1 p.2).length := by
      rw [renderLine, List.length_append]
      simp
    omega



theorem records_render (M : List (Nat × List Char))
    (hM : ∀ p ∈ M, goodData p.2 ∧ p.1 ≤ 2147483647)
    (hnd : (M.map Prod.fst).Nodup) :
    (recordsOfL (renderList M)).length = M.length ∧
    ∀ i d, (i, d) ∈ M → ((i : Int), values6 d) ∈ recordsOfL (renderList M) := by
  have hcol := (collectGo_render M hM (renderList M).length [] (-1)
    (renderList_len_ge M)).1
  unfold recordsOfL
  rw [hcol]
  rcases M with _ | ⟨p0, t0⟩
  · exact ⟨rfl, fun i d h => absurd h (List.not_mem_nil _)⟩
  · set M := p0 :: t0 with hMdef
    set m := M.foldl (fun a p => insertA a (p.1 : Int) (lineBody p.1 p.2)) [] with hm
    set mx := M.foldl (fun mm p => if (p.1 : Int) > mm then (p.1 : Int) else mm)
      (-1 : Int) with hmx
    have hmx0 : ¬ mx < 0 := by
      have h1 := (fold_max_ge M (-1)).2 p0 (List.mem_cons_self _ _)
      rw [← hmx] at h1
      have h2 : (0 : Int) ≤ (p0.1 : Int) := by positivity
      omega
    have hub : ∀ p ∈ M, p.1 < mx.toNat + 1 := by
      intro p hp
      have h1 := (fold_max_ge M (-1)).2 p hp
      rw [← hmx] at h1
      omega
    have hkey_some : ∀ (i : Nat) (d : List Char), (i, d) ∈ M →
        lookupA m (i : Int) = some (lineBody i d) := by
      intro i d hmem
      rw [hm]
      exact lookupA_fold_mem M i d hmem hnd []
    have hkey_none : ∀ n : Nat, n ∉ M.map Prod.fst → lookupA m (n : Int) = none := by
      intro n hn
      rw [hm, lookupA_fold_notmem M _ ?hne]
      · rfl
      case hne =>
        intro p hp heq
        exact hn (by
          have : p.1 = n := by exact_mod_cast heq
          exact this ▸ List.mem_map_of_mem Prod.fst hp)
    show (cellsOf m mx).length = M.length ∧
      ∀ i d, (i, d) ∈ M → ((i : Int), values6 d) ∈ cellsOf m mx
    constructor
    · unfold cellsOf
      rw [if_neg hmx0, length_filterMap_eq_countP]
      refine Eq.trans (List.countP_congr ?hpt)
        (Eq.trans (countP_range_mem (mx.toNat + 1) (M.map Prod.fst) hnd
          (by intro k hk; obtain ⟨p, hp, rfl⟩ := List.mem_map.mp hk; exact hub p hp))
          (by rw [List.length_map]))
      case hpt =>
        intro n hn
        by_cases hmem : n ∈ M.map Prod.fst
        · obtain ⟨p, hp, hpn⟩ := List.mem_map.mp hmem
          obtain ⟨hd, hi⟩ := hM p hp
          have hpair : (n, p.2) ∈ M := by
            rw [← hpn]
            exact hp
          have hlook := hkey_some n p.2 hpair
          simp only [hlook, lineBody_comma1, lineBody_q1 n p.2 hd,
            lineBody_q2 n p.2 hd]
          rw [if_neg (by
            simp only [Bool.or_eq_true, beq_iff_eq]
            rintro (h | h) <;> omega)]
          simp [hmem]
        · have hlook := hkey_none n hmem
          simp only [hlook]
          simp [hmem]
    · intro i d hmem
      obtain ⟨hd, hi⟩ := hM (i, d) hmem
      unfold cellsOf
      rw [if_neg hmx0]
      apply List.mem_filterMap.mpr
      refine ⟨i, List.mem_range.mpr (hub (i, d) hmem), ?_⟩
      have hlook := hkey_some i d hmem
      simp only [hlook, lineBody_comma1, lineBody_q1 i d hd, lineBody_q2 i d hd]
      rw [if_neg (by
        simp only [Bool.or_eq_true, beq_iff_eq]
        rintro (h | h) <;> omega)]
      rw [lineBody_data i d hd]

theorem firstOcc_single_decomp (c : Char) : ∀ (l : List Char) (k : Nat),
    firstOcc [c] l = some k →
    ∃ A B, l = A ++ c :: B ∧ A.length = k ∧ c ∉ A := by
  intro l
  induction l with
  | nil =>
    intro k h
    exact absurd h (by simp [firstOcc])
  | cons a as ih =>
    intro k h
    by_cases hp : List.isPrefixOf [c] (a :: as) = true
    · have hk : k = 0 := by
        rw [firstOcc, if_pos hp] at h
        exact (Option.some_inj.mp h).symm
      have hca : c = a := by
        simpa [List.isPrefixOf] using hp
      refine ⟨[], as, ?_, ?_, ?_⟩
      · rw [hca]
        rfl
      · simp [hk]
      · simp
    · rw [firstOcc, if_neg hp] at h
      rcases ho : firstOcc [c] as with _ | k'
      · rw [ho] at h
        exact absurd h (by simp)
      · rw [ho] at h
        simp only [Option.map_some'] at h
        have hk : k = k' + 1 := (Option.some_inj.mp h).symm
        obtain ⟨A, B, hAB, hAlen, hAnot⟩ := ih k' ho
        refine ⟨a :: A, B, ?_, ?_, ?_⟩
        · rw [List.cons_append, ← hAB]
        · simp [hAlen, hk]
        · intro hm
          rcases List.mem_cons.mp hm with h1 | h1
          · exact hp (by simp [List.isPrefixOf, h1])
          · exact hAnot h1

theorem commaCount_decomp (A B : List Char) (h : (',' : Char) ∉ A) :
    commaCount (A ++ ',' :: B) = commaCount B + 1 := by
  unfold commaCount
  have hA : A.countP (fun x => x = ',') = 0 := by
    rw [List.countP_eq_zero]
    intro a ha
    simp only [decide_eq_true_eq]
    exact fun hcc => h (hcc ▸ ha)
  rw [List.countP_append, List.countP_cons, hA]
  simp

theorem splitGo_none (j f : Nat) (dd : List Char) (h : firstOcc commaTok dd = none)
    (hj : 0 < j) : splitGo j dd = [dd] ∧ splitAllGo f dd = [dd] := by
  constructor
  · rcases j with _ | j
    · omega
    · simp only [splitGo, h]
  · rcases f with _ | f
    · rfl
    · simp only [splitAllGo, h]

theorem splitGo_eq_allGo (n : Nat) : ∀ (dd : List Char), dd.length ≤ n →
    ∀ (j f : Nat), commaCount dd < j → commaCount dd ≤ f →
    splitGo j dd = splitAllGo f dd := by
  induction n with
  | zero =>
    intro dd hlen j f hj hf
    have hnil : dd = [] := List.eq_nil_of_length_eq_zero (Nat.le_zero.mp hlen)
    subst hnil
    obtain ⟨h1, h2⟩ := splitGo_none j f [] rfl (Nat.lt_of_le_of_lt (Nat.zero_le _) hj)
    rw [h1, h2]
  | succ n ih =>
    intro dd hlen j f hj hf
    rcases hocc : firstOcc commaTok dd with _ | k
    · obtain ⟨h1, h2⟩ :=
        splitGo_none j f dd hocc (Nat.lt_of_le_of_lt (Nat.zero_le _) hj)
      rw [h1, h2]
    · obtain ⟨A, B, hAB, hAlen, hAnot⟩ := firstOcc_single_decomp ',' dd k hocc
      have hcc : commaCount dd = commaCount B + 1 := by
        rw [hAB]
        exact commaCount_decomp A B hAnot
      rcases j with _ | j
      · omega
      rcases f with _ | f
      · omega
      simp only [splitGo, splitAllGo, hocc]
      have htake : dd.take k = A := by
        rw [hAB, ← hAlen]
        exact List.take_left A (',' :: B)
      have hdrop : dd.drop (k + 1) = B := by
        rw [hAB, ← hAlen]
        have hsplit : A ++ ',' :: B = (A ++ [',']) ++ B := by simp
        rw [hsplit, show A.length + 1 = (A ++ [',']).length by simp]
        exact List.drop_left _ _
      rw [htake, hdrop]
      have hBlen : B.length ≤ n := by
        have hl := congrArg List.length hAB
        simp only [List.length_append, List.length_cons] at hl
        omega
      rw [ih B hBlen j f (by omega) (by omega)]

theorem splitGo_len_le (j : Nat) : ∀ dd : List Char, (splitGo j dd).length ≤ j := by
  induction j with
  | zero =>
    intro dd
    simp [splitGo]
  | succ j ih =>
    intro dd
    rcases hocc : firstOcc commaTok dd with _ | k
    · simp [splitGo, hocc]
    · simp only [splitGo, hocc, List.length_cons]
      exact Nat.succ_le_succ (ih _)

theorem values6_eq_spec (dd : List Char) (hc : commaCount dd ≤ 4) :
    values6 dd = specSplit6 dd := by
  have hcl : commaCount dd ≤ dd.length := by
    unfold commaCount
    exact List.countP_le_length _
  have heq : splitGo 5 dd = splitAllGo dd.length dd :=
    splitGo_eq_allGo dd.length dd (le_refl _) 5 dd.length (by omega) hcl
  simp only [values6, specSplit6]
  rw [← heq, List.take_of_length_le (le_trans (splitGo_len_le 5 dd) (by omega))]

/-- C7: amended behavior of the tabular record collection. For a response made
of well-formed record lines with distinct in-range indices, the parse yields
exactly one record per line, each carrying its line's index and the values6
comma-split of its quoted section; and values6 agrees with the spec's 6-field
split exactly when the section holds at most 4 commas (with 5 or more the 6th
field is dropped, and duplicate indices collapse to the last line, refuting the
claim's "every line yields a record" and its 6-field split reading). -/
theorem tabular_records_amended (L : List (Nat × String))
    (hgood : ∀ p ∈ L, goodData p.2.data)
    (hidx : ∀ p ∈ L, p.1 ≤ 2147483647)
    (hnd : (L.map Prod.fst).Nodup) :
    (recordsOfStr (renderCeng L)).length = L.length ∧
    (∀ (i : Nat) (d : String), (i, d) ∈ L →
      ((i : Int), (values6 d.data).map String.mk) ∈ recordsOfStr (renderCeng L)) ∧
    ∀ dd : List Char, commaCount dd ≤ 4 → values6 dd = specSplit6 dd := by
  set M : List (Nat × List Char) := L.map fun p => (p.1, p.2.data) with hMdef
  have hM : ∀ p ∈ M, goodData p.2 ∧ p.1 ≤ 2147483647 := by
    intro p hp
    rw [hMdef] at hp
    obtain ⟨q, hq, rfl⟩ := List.mem_map.mp hp
    exact ⟨hgood q hq, hidx q hq⟩
  have hndM : (M.map Prod.fst).Nodup := by
    rw [hMdef, List.map_map]
    exact hnd
  obtain ⟨hlen, hmem⟩ := records_render M hM hndM
  have hdata : (renderCeng L).data = renderList M := rfl
  refine ⟨?_, ?_, fun dd h => values6_eq_spec dd h⟩
  · show (recordsOfStr (renderCeng L)).length = L.length
    unfold recordsOfStr
    rw [hdata, List.length_map, hlen, hMdef, List.length_map]
  · intro i d hmemL
    unfold recordsOfStr
    rw [hdata]
    have h1 : ((i : Int), values6 d.data) ∈ recordsOfL (renderList M) := by
      apply hmem i d.data
      rw [hMdef]
      exact List.mem_map_of_mem _ hmemL
    exact List.mem_map_of_mem (fun p => (p.1, p.2.map fun v => String.mk v)) h1

/-- C7 counterexample: a single well-formed line whose quoted section has five
commas loses its 6th field (values6 pads with "" where the spec split keeps
"5"), and two well-formed lines sharing index 0 collapse to one record holding
the later line's data. -/
theorem tabular_records_divergence :
    recordsOfStr (String.mk ('+' :: "CENG: 0,\"228,10,0495,27B9,18,5\"\n".data)) =
      [((0 : Int), ["228", "10", "0495", "27B9", "18", ""])] ∧
    (specSplit6 "228,10,0495,27B9,18,5".data).map String.mk =
      ["228", "10", "0495", "27B9", "18", "5"] ∧
    recordsOfStr (String.mk
        ('+' :: "CENG: 0,\"a\"\n+CENG: 0,\"b\"\n".data)) =
      [((0 : Int), ["b", "", "", "", "", ""])] := by
  refine ⟨by decide, by decide, by decide⟩

theorem tabular_records_amended_witness :
    (recordsOfStr (renderCeng [(0, "228,10,0495,27B9,18"),
        (2, "229,01,00AB,0001,33")])).length = 2 ∧
    ((0 : Int), (values6 "228,10,0495,27B9,18".data).map String.mk) ∈
      recordsOfStr (renderCeng [(0, "228,10,0495,27B9,18"),
        (2, "229,01,00AB,0001,33")]) ∧
    values6 "228,10,0495,27B9,18".data =
      specSplit6 "228,10,0495,27B9,18".data := by
  have h := tabular_records_amended
    [(0, "228,10,0495,27B9,18"), (2, "229,01,00AB,0001,33")]
    (by decide) (by decide) (by decide)
  exact ⟨h.1, h.2.1 0 "228,10,0495,27B9,18" (by decide),
    h.2.2 "228,10,0495,27B9,18".data (by decide)⟩

end SIM800
